import Mathlib

/-!
Verification development for the `dasa` notebook toolkit.

Shallow embedding of the core data model and operations:
* `src/dasa/session/state.py`   — execution journal (`StateTracker`)
* `src/dasa/session/jobs.py`    — job registry (`JobManager`)
* `src/dasa/session/context.py` / `profiles.py` — atomic persistence writers
* `src/dasa/analysis/parser.py` — magic-line preprocessing of `parse_cell`
* `src/dasa/analysis/deps.py`   — dependency graph
* `src/dasa/analysis/state.py`  — state analyzer
* `src/dasa/notebook/jupyter.py`/`marimo.py` — notebook adapters
* `src/dasa/cli/run.py` / `check.py` / `replay.py` — orchestration

Python dictionaries are modelled as association lists (`dictGet`/`dictSet`),
cryptographic hashes (`hashlib.sha256(...).hexdigest()[:12]`, `hashlib.md5`)
and path canonicalization (`Path(path).resolve()`) as abstract `String → String`
parameters, and on-disk state as explicitly passed values (a save followed by
a load of the same store is treated as the identity, which the JSON round
trip of the source provides).
-/

namespace Dasa

/-! ## Association-list model of Python `dict` -/

/-- `d.get(k)` on a Python dict modelled as an association list. -/
def dictGet {α β : Type} [DecidableEq α] (k : α) : List (α × β) → Option β
  | [] => none
  | (k', v) :: t => if k' = k then some v else dictGet k t

/-- `d[k] = v` on a Python dict: replace the binding if present, else append. -/
def dictSet {α β : Type} [DecidableEq α] (l : List (α × β)) (k : α) (v : β) :
    List (α × β) :=
  match l with
  | [] => [(k, v)]
  | (k', v') :: t => if k' = k then (k, v) :: t else (k', v') :: dictSet t k v

theorem dictGet_dictSet_self {α β : Type} [DecidableEq α]
    (l : List (α × β)) (k : α) (v : β) : dictGet k (dictSet l k v) = some v := by
  induction l with
  | nil => simp [dictGet, dictSet]
  | cons hd t ih =>
      obtain ⟨k', v'⟩ := hd
      by_cases h : k' = k
      · simp [dictGet, dictSet, h]
      · simp [dictGet, dictSet, h, ih]

theorem dictGet_dictSet_ne {α β : Type} [DecidableEq α]
    (l : List (α × β)) (k k' : α) (v : β) (h : k' ≠ k) :
    dictGet k' (dictSet l k v) = dictGet k' l := by
  induction l with
  | nil => simp [dictGet, dictSet, Ne.symm h]
  | cons hd t ih =>
      obtain ⟨k₀, v₀⟩ := hd
      by_cases h₀ : k₀ = k
      · subst h₀
        simp [dictGet, dictSet, Ne.symm h]
      · by_cases h₁ : k₀ = k'
        · simp [dictGet, dictSet, h₀, h₁, h]
        · simp [dictGet, dictSet, h₀, h₁, h, ih]

/-! ## Execution journal — `src/dasa/session/state.py` (`StateTracker`)

The persisted `state.json` object is keyed by the canonicalized notebook path
(`_normalize_path`, modelled by the parameter `normPath`); each value is an
object `{"cells": {...}}` keyed by `str(cell_index)` holding
`{"code_hash": hex(sha256(source))[:12], "last_run": ...}`.  The truncated
hash is modelled by the parameter `codeHash`. -/

structure JournalEntry where
  code_hash : String
  last_run : String
deriving DecidableEq, Repr

/-- The journal store: canonical path ↦ (`str(index)` ↦ entry).  The
`{"cells": ...}` wrapper object of the source holds nothing besides the inner
map, so it is elided. -/
abbrev Journal := List (String × List (String × JournalEntry))

/-- `StateTracker.update_cell`: record the truncated source hash and timestamp
for `(normalized path, str(index))`. -/
def update_cell (codeHash normPath : String → String) (st : Journal)
    (notebook : String) (cell_index : Nat) (source : String) (now : String) :
    Journal :=
  let key := normPath notebook
  let cellsMap := (dictGet key st).getD []
  dictSet st key
    (dictSet cellsMap (toString cell_index) ⟨codeHash source, now⟩)

/-- `StateTracker.is_stale`: `true` when no entry exists or the stored hash
differs from the hash of the current source. -/
def is_stale (codeHash normPath : String → String) (st : Journal)
    (notebook : String) (cell_index : Nat) (current_source : String) : Bool :=
  match dictGet (toString cell_index)
      ((dictGet (normPath notebook) st).getD []) with
  | none => true
  | some e => e.code_hash != codeHash current_source

/-- `StateTracker.was_executed`: an entry exists, regardless of hash. -/
def was_executed (normPath : String → String) (st : Journal)
    (notebook : String) (cell_index : Nat) : Bool :=
  (dictGet (toString cell_index)
      ((dictGet (normPath notebook) st).getD [])).isSome

/-- `StateTracker.was_executed_current`: executed and not stale. -/
def was_executed_current (codeHash normPath : String → String) (st : Journal)
    (notebook : String) (cell_index : Nat) (current_source : String) : Bool :=
  was_executed normPath st notebook cell_index &&
    !is_stale codeHash normPath st notebook cell_index current_source

theorem is_stale_update_self (codeHash normPath : String → String)
    (st : Journal) (p : String) (i : Nat) (s now : String) :
    is_stale codeHash normPath (update_cell codeHash normPath st p i s now)
      p i s = false := by
  simp [is_stale, update_cell, dictGet_dictSet_self]

theorem is_stale_update_other (codeHash normPath : String → String)
    (st : Journal) (p : String) (i : Nat) (s s' now : String)
    (hne : codeHash s' ≠ codeHash s) :
    is_stale codeHash normPath (update_cell codeHash normPath st p i s now)
      p i s' = true := by
  simp [is_stale, update_cell, dictGet_dictSet_self, bne_iff_ne]
  exact fun hh => hne hh.symm

/-- Claim C8: immediately after `journal.update(path, i, s)`,
`is_stale(path, i, s)` returns `false`, and for every source `s'` different
from `s`, `is_stale(path, i, s')` returns `true`.  The truncated SHA-256 hash
of the source is modelled as an abstract function `codeHash`; the second half
holds exactly when the two sources have distinct hashes, so the collision
freedom of the truncated hash on the sources in play is taken as the
hypothesis `hinj`. -/
theorem C8_update_then_is_stale (codeHash normPath : String → String)
    (hinj : Function.Injective codeHash)
    (st : Journal) (p : String) (i : Nat) (s s' now : String) (hne : s' ≠ s) :
    is_stale codeHash normPath (update_cell codeHash normPath st p i s now)
      p i s = false ∧
    is_stale codeHash normPath (update_cell codeHash normPath st p i s now)
      p i s' = true :=
  ⟨is_stale_update_self codeHash normPath st p i s now,
   is_stale_update_other codeHash normPath st p i s s' now
     (fun hh => hne (hinj hh))⟩

/-- Witness for C8 at a concrete journal, path, index and pair of sources,
with the hash instantiated to an injective stand-in. -/
theorem C8_update_then_is_stale_witness :
    is_stale (fun s => s) (fun p => p)
      (update_cell (fun s => s) (fun p => p) [] "nb.ipynb" 0 "x = 1" "t0")
      "nb.ipynb" 0 "x = 1" = false ∧
    is_stale (fun s => s) (fun p => p)
      (update_cell (fun s => s) (fun p => p) [] "nb.ipynb" 0 "x = 1" "t0")
      "nb.ipynb" 0 "x = 999" = true :=
  C8_update_then_is_stale (fun s => s) (fun p => p) (fun _ _ hh => hh)
    [] "nb.ipynb" 0 "x = 1" "x = 999" "t0" (by decide)

/-! ## Job registry — `src/dasa/session/jobs.py` (`JobManager`)

One JSON file per job under `.dasa/jobs/`; modelled as an association list
from job id to record.  OS-process liveness (`os.kill(pid, 0)`) is modelled
by the parameter `alive`. -/

structure JobRecord where
  id : String
  notebook : String
  cell : Nat
  pid : Nat
  status : String
  started_at : String
  completed_at : Option String
  error : Option String
deriving DecidableEq, Repr

/-- The jobs directory: job id ↦ stored record. -/
abbrev JobStore := List (String × JobRecord)

/-- `JobManager.get_job`: read the stored record as-is.  The function performs
no write, which the returned second component (the unchanged store) makes
explicit. -/
def get_job (store : JobStore) (job_id : String) : Option JobRecord × JobStore :=
  (dictGet job_id store, store)

/-- `JobManager.is_running`: signal-zero probe on the stored pid; `false` for
a missing job, a zero pid, or a dead process.  The store is not modified. -/
def is_running (alive : Nat → Bool) (store : JobStore) (job_id : String) :
    Bool :=
  match dictGet job_id store with
  | none => false
  | some j => if j.pid = 0 then false else alive j.pid

/-- A stored job that is still marked `running` although its process is dead
(`alive` is `false` everywhere). -/
def deadRunningStore : JobStore :=
  [("deadbeef",
    ⟨"deadbeef", "nb.ipynb", 0, 4242, "running", "t0", none, none⟩)]

/-- Claim C9, counterexample: for a stored job with status `"running"` whose
recorded process no longer exists, `get_job` still returns the record with
status `"running"` (not `"failed"`) and persists nothing — the store is
unchanged — even though the liveness probe reports the process dead. -/
theorem C9_counterexample_no_promotion :
    ((get_job deadRunningStore "deadbeef").1.map (·.status) = some "running" ∧
      "running" ≠ "failed") ∧
    (get_job deadRunningStore "deadbeef").2 = deadRunningStore ∧
    is_running (fun _ => false) deadRunningStore "deadbeef" = false := by
  refine ⟨⟨?_, by decide⟩, rfl, rfl⟩
  rfl

/-- Claim C9, amended: reading a job returns the stored record unchanged —
no status promotion ever happens on read and nothing is written back; the
only dead-process handling is `is_running`, which reports `false` for a job
whose pid is `0` or whose process is gone, without mutating the store. -/
theorem C9_get_job_returns_stored_record (store : JobStore) (jid : String)
    (j : JobRecord) (alive : Nat → Bool) (hfind : dictGet jid store = some j) :
    (get_job store jid).1 = some j ∧
    (get_job store jid).2 = store ∧
    (j.pid = 0 ∨ alive j.pid = false → is_running alive store jid = false) := by
  refine ⟨by simp [get_job, hfind], rfl, ?_⟩
  rintro (h0 | hdead)
  · simp [is_running, hfind, h0]
  · by_cases hp : j.pid = 0
    · simp [is_running, hfind, hp]
    · simp [is_running, hfind, hp, hdead]

/-- Witness for C9's amended theorem at the concrete dead-running store. -/
theorem C9_get_job_returns_stored_record_witness :
    (get_job deadRunningStore "deadbeef").1 =
      some ⟨"deadbeef", "nb.ipynb", 0, 4242, "running", "t0", none, none⟩ ∧
    (get_job deadRunningStore "deadbeef").2 = deadRunningStore ∧
    is_running (fun _ => false) deadRunningStore "deadbeef" = false := by
  have h := C9_get_job_returns_stored_record deadRunningStore "deadbeef"
    ⟨"deadbeef", "nb.ipynb", 0, 4242, "running", "t0", none, none⟩
    (fun _ => false) (by rfl)
  exact ⟨h.1, h.2.1, h.2.2 (Or.inr rfl)⟩

/-! ## Notebook cells — `src/dasa/notebook/base.py` / `jupyter.py`

`Cell` of `base.py`; saved outputs keep only the fields `_compare_outputs`
of `replay.py` reads (`output_type`, `text`, `data["text/plain"]`). -/

/-- One saved output block of a cell (an entry of nbformat's `outputs`). -/
inductive NbOutput
  | stream (text : String)
  | executeResult (textPlain : String)
  | displayData (textPlain : String)
  | other
deriving DecidableEq, Repr

structure NbCell where
  index : Nat
  cell_type : String
  source : String
  outputs : List NbOutput
  execution_count : Option Nat
deriving DecidableEq, Repr

/-- Default cell used with `List.getD` when stating frame properties. -/
def blankCell : NbCell := ⟨0, "code", "", [], none⟩

/-- `JupyterAdapter.cells`: cells are enumerated positionally, so the `index`
field equals the list position. -/
def mkCells (raw : List (String × String × List NbOutput × Option Nat)) :
    List NbCell :=
  raw.enum.map fun (i, ty, src, outs, cnt) => ⟨i, ty, src, outs, cnt⟩

/-- In-place positional source assignment
(`self._notebook.cells[index].source = source`). -/
def setSourceAt : List NbCell → Nat → String → List NbCell
  | [], _, _ => []
  | c :: t, 0, src => { c with source := src } :: t
  | c :: t, n + 1, src => c :: setSourceAt t n src

/-- `JupyterAdapter.update_cell`: bounds-check then assign the new source;
`none` models the `IndexError` raised for an out-of-range index.  No other
field of any cell is touched. -/
def jupyter_update_cell (nb : List NbCell) (index : Nat) (source : String) :
    Option (List NbCell) :=
  if index < nb.length then some (setSourceAt nb index source) else none

theorem setSourceAt_length (nb : List NbCell) (i : Nat) (s : String) :
    (setSourceAt nb i s).length = nb.length := by
  induction nb generalizing i with
  | nil => rfl
  | cons c t ih =>
      cases i with
      | zero => rfl
      | succ n => simp [setSourceAt, ih]

theorem setSourceAt_getD_ne (nb : List NbCell) (i j : Nat) (s : String)
    (hne : j ≠ i) :
    (setSourceAt nb i s).getD j blankCell = nb.getD j blankCell := by
  induction nb generalizing i j with
  | nil => rfl
  | cons c t ih =>
      cases i with
      | zero =>
          cases j with
          | zero => exact absurd rfl hne
          | succ m => simp [setSourceAt]
      | succ n =>
          cases j with
          | zero => simp [setSourceAt]
          | succ m =>
              simp only [setSourceAt, List.getD_cons_succ]
              exact ih n m (fun hh => hne (by simp [hh]))

theorem setSourceAt_getD_self (nb : List NbCell) (i : Nat) (s : String)
    (hi : i < nb.length) :
    (setSourceAt nb i s).getD i blankCell =
      { nb.getD i blankCell with source := s } := by
  induction nb generalizing i with
  | nil => simp at hi
  | cons c t ih =>
      cases i with
      | zero => rfl
      | succ n =>
          simp only [setSourceAt, List.getD_cons_succ]
          exact ih n (by simpa using hi)

/-- A concrete one-cell notebook whose only cell has been executed
(`execution_count = 1`). -/
def executedOnceNb : List NbCell := mkCells [("code", "x = 1", [], some 1)]

/-- Claim C5, counterexample: updating the source of cell 0 of a notebook
whose cell 0 carries `execution_count = 1` leaves the counter at `1` — the
mutation does not clear the affected cell's execution counter. -/
theorem C5_counterexample_counter_not_cleared :
    (jupyter_update_cell executedOnceNb 0 "y = 2").map
        (fun nb => nb.map (·.execution_count)) = some [some 1] ∧
    some 1 ≠ (none : Option Nat) := by
  constructor
  · rfl
  · decide

/-- Claim C5, amended: an in-range `update_cell i` replaces only cell `i`'s
source; it does **not** clear the cell's `execution_counter` — the counter,
outputs and type of cell `i` are preserved — and every cell other than `i`
is left completely unchanged. -/
theorem C5_update_cell_frame (nb : List NbCell) (i : Nat) (src : String)
    (hi : i < nb.length) :
    ∃ nb', jupyter_update_cell nb i src = some nb' ∧
      nb'.length = nb.length ∧
      (nb'.getD i blankCell).source = src ∧
      (nb'.getD i blankCell).execution_count =
        (nb.getD i blankCell).execution_count ∧
      (nb'.getD i blankCell).outputs = (nb.getD i blankCell).outputs ∧
      (nb'.getD i blankCell).cell_type = (nb.getD i blankCell).cell_type ∧
      ∀ j, j ≠ i → nb'.getD j blankCell = nb.getD j blankCell := by
  refine ⟨setSourceAt nb i src, by simp [jupyter_update_cell, hi], ?_, ?_, ?_, ?_, ?_, ?_⟩
  · exact setSourceAt_length nb i src
  · rw [setSourceAt_getD_self nb i src hi]
  · rw [setSourceAt_getD_self nb i src hi]
  · rw [setSourceAt_getD_self nb i src hi]
  · rw [setSourceAt_getD_self nb i src hi]
  · exact fun j hj => setSourceAt_getD_ne nb i j src hj

/-- Witness for C5's amended theorem on the concrete executed notebook. -/
theorem C5_update_cell_frame_witness :
    0 < executedOnceNb.length ∧
    ∃ nb', jupyter_update_cell executedOnceNb 0 "y = 2" = some nb' ∧
      nb'.length = executedOnceNb.length ∧
      (nb'.getD 0 blankCell).source = "y = 2" ∧
      (nb'.getD 0 blankCell).execution_count =
        (executedOnceNb.getD 0 blankCell).execution_count ∧
      (nb'.getD 0 blankCell).outputs = (executedOnceNb.getD 0 blankCell).outputs ∧
      (nb'.getD 0 blankCell).cell_type =
        (executedOnceNb.getD 0 blankCell).cell_type ∧
      ∀ j, j ≠ 0 → nb'.getD j blankCell = executedOnceNb.getD j blankCell :=
  ⟨by decide, C5_update_cell_frame executedOnceNb 0 "y = 2" (by decide)⟩

/-! ## Marimo adapter — `src/dasa/notebook/marimo.py` (`MarimoAdapter`)

The in-memory state after `_parse_cells` is the list `self._cells` of
`MarimoCell`s.  `update_cell` and `delete_cell` operate on that list; neither
raises any read-only error — the only failure is the `IndexError` bounds
check, modelled by `none`. -/

structure MarimoCell where
  index : Nat
  name : String
  source : String
  inputs : List String
  outputs : List String
deriving DecidableEq, Repr

def blankMarimoCell : MarimoCell := ⟨0, "", "", [], []⟩

/-- Positional source assignment (`self._cells[index].source = source`). -/
def setMarimoSourceAt : List MarimoCell → Nat → String → List MarimoCell
  | [], _, _ => []
  | c :: t, 0, src => { c with source := src } :: t
  | c :: t, n + 1, src => c :: setMarimoSourceAt t n src

/-- `MarimoAdapter.update_cell`: bounds-check, then overwrite the in-memory
cell source (the raw file content is not touched, per the source comment). -/
def marimo_update_cell (cells : List MarimoCell) (index : Nat)
    (source : String) : Option (List MarimoCell) :=
  if index < cells.length then some (setMarimoSourceAt cells index source)
  else none

/-- The reindexing loop after a delete (`cell.index = i` for each position). -/
def marimoReindex (cells : List MarimoCell) : List MarimoCell :=
  cells.enum.map fun (i, c) => { c with index := i }

/-- `MarimoAdapter.delete_cell`: bounds-check, `del self._cells[index]`, then
reindex the remaining cells. -/
def marimo_delete_cell (cells : List MarimoCell) (index : Nat) :
    Option (List MarimoCell) :=
  if index < cells.length then some (marimoReindex (cells.eraseIdx index))
  else none

/-- A loaded one-cell marimo notebook. -/
def marimoOneCell : List MarimoCell := [⟨0, "cell1", "x = 1", [], ["x"]⟩]

/-- Claim C1, counterexample: on a reactive-script (marimo) notebook,
`update_cell 0` succeeds — it raises no `ReadOnlyNotebook` error (no such
error exists in the code) and changes the cell's source — and
`delete_cell 0` succeeds as well, leaving an empty notebook. -/
theorem C1_counterexample_mutation_succeeds :
    marimo_update_cell marimoOneCell 0 "x = 2" =
      some [⟨0, "cell1", "x = 2", [], ["x"]⟩] ∧
    marimo_delete_cell marimoOneCell 0 = some [] := by
  constructor <;> rfl

theorem setMarimoSourceAt_length (cells : List MarimoCell) (i : Nat)
    (s : String) : (setMarimoSourceAt cells i s).length = cells.length := by
  induction cells generalizing i with
  | nil => rfl
  | cons c t ih =>
      cases i with
      | zero => rfl
      | succ n => simp [setMarimoSourceAt, ih]

theorem setMarimoSourceAt_getD_ne (cells : List MarimoCell) (i j : Nat)
    (s : String) (hne : j ≠ i) :
    (setMarimoSourceAt cells i s).getD j blankMarimoCell =
      cells.getD j blankMarimoCell := by
  induction cells generalizing i j with
  | nil => rfl
  | cons c t ih =>
      cases i with
      | zero =>
          cases j with
          | zero => exact absurd rfl hne
          | succ m => simp [setMarimoSourceAt]
      | succ n =>
          cases j with
          | zero => simp [setMarimoSourceAt]
          | succ m =>
              simp only [setMarimoSourceAt, List.getD_cons_succ]
              exact ih n m (fun hh => hne (by simp [hh]))

theorem setMarimoSourceAt_getD_self (cells : List MarimoCell) (i : Nat)
    (s : String) (hi : i < cells.length) :
    (setMarimoSourceAt cells i s).getD i blankMarimoCell =
      { cells.getD i blankMarimoCell with source := s } := by
  induction cells generalizing i with
  | nil => simp at hi
  | cons c t ih =>
      cases i with
      | zero => rfl
      | succ n =>
          simp only [setMarimoSourceAt, List.getD_cons_succ]
          exact ih n (by simpa using hi)

theorem marimoReindex_index (cells : List MarimoCell) (j : Nat)
    (hj : j < cells.length) :
    ((marimoReindex cells).getD j blankMarimoCell).index = j := by
  have hlen : (marimoReindex cells).length = cells.length := by
    simp [marimoReindex]
  have hj' : j < (marimoReindex cells).length := by rw [hlen]; exact hj
  rw [List.getD_eq_getElem _ _ hj']
  simp [marimoReindex]

/-- Claim C1, amended: mutating operations on a loaded reactive-script
notebook do not fail with `ReadOnlyNotebook` — for every in-range index they
succeed: `update_cell` replaces exactly the target cell's in-memory source
(every other cell is unchanged), and `delete_cell` removes the cell and
reindexes the remainder to `0..N-2`.  Only an out-of-range index fails, with
`IndexError`. -/
theorem C1_marimo_mutation_succeeds (cells : List MarimoCell) (i : Nat)
    (src : String) (hi : i < cells.length) :
    (∃ cells', marimo_update_cell cells i src = some cells' ∧
      cells'.length = cells.length ∧
      (cells'.getD i blankMarimoCell).source = src ∧
      ∀ j, j ≠ i → cells'.getD j blankMarimoCell =
        cells.getD j blankMarimoCell) ∧
    (∃ cells'', marimo_delete_cell cells i = some cells'' ∧
      cells''.length = cells.length - 1 ∧
      ∀ j, j < cells.length - 1 →
        (cells''.getD j blankMarimoCell).index = j) := by
  constructor
  · refine ⟨setMarimoSourceAt cells i src,
      by simp [marimo_update_cell, hi], setMarimoSourceAt_length cells i src,
      ?_, fun j hj => setMarimoSourceAt_getD_ne cells i j src hj⟩
    rw [setMarimoSourceAt_getD_self cells i src hi]
  · have hlen : (cells.eraseIdx i).length = cells.length - 1 :=
      List.length_eraseIdx_of_lt hi
    refine ⟨marimoReindex (cells.eraseIdx i),
      by simp [marimo_delete_cell, hi], ?_, ?_⟩
    · simp [marimoReindex, hlen]
    · intro j hj
      exact marimoReindex_index _ j (by rw [hlen]; exact hj)

/-- Witness for C1's amended theorem on the concrete one-cell notebook. -/
theorem C1_marimo_mutation_succeeds_witness :
    0 < marimoOneCell.length ∧
    ((∃ cells', marimo_update_cell marimoOneCell 0 "x = 2" = some cells' ∧
      cells'.length = marimoOneCell.length ∧
      (cells'.getD 0 blankMarimoCell).source = "x = 2" ∧
      ∀ j, j ≠ 0 → cells'.getD j blankMarimoCell =
        marimoOneCell.getD j blankMarimoCell) ∧
    (∃ cells'', marimo_delete_cell marimoOneCell 0 = some cells'' ∧
      cells''.length = marimoOneCell.length - 1 ∧
      ∀ j, j < marimoOneCell.length - 1 →
        (cells''.getD j blankMarimoCell).index = j)) :=
  ⟨by decide, C1_marimo_mutation_succeeds marimoOneCell 0 "x = 2" (by decide)⟩

/-! ## Cell-parser preprocessing — `src/dasa/analysis/parser.py` (`parse_cell`)

The loop at the top of `parse_cell` splits the source on newlines and keeps
every line except those whose stripped form starts with `%` or `!`; the kept
lines are rejoined and handed to `ast.parse`. -/

/-- Python `str.strip()` (no argument): drop whitespace from both ends.
Lean's built-in `String.trim` is avoided because its byte-position loops do
not reduce in the kernel; this structural version does. -/
def pyStrip (s : String) : String :=
  ⟨((s.data.dropWhile Char.isWhitespace).reverse.dropWhile
      Char.isWhitespace).reverse⟩

/-- Python `s.startswith(c)` for a one-character prefix. -/
def pyStartsWith (s : String) (c : Char) : Bool :=
  match s.data with
  | [] => false
  | c' :: _ => c' = c

/-- Python `source.split('\n')`. -/
def splitLinesAux : List Char → List Char → List (List Char)
  | [], acc => [acc.reverse]
  | c :: t, acc =>
      if c = '\n' then acc.reverse :: splitLinesAux t []
      else splitLinesAux t (c :: acc)

def splitLines (s : String) : List String :=
  (splitLinesAux s.data []).map fun l => ⟨l⟩

/-- Python `'\n'.join(lines)`. -/
def joinLines : List String → String
  | [] => ""
  | l :: t => t.foldl (fun acc x => acc ++ "\n" ++ x) l

/-- A line the loop removes: its stripped form starts with `%` or `!`. -/
def isMagicLine (line : String) : Bool :=
  pyStartsWith (pyStrip line) '%' || pyStartsWith (pyStrip line) '!'

/-- The filtering loop of `parse_cell` (`for line in source.split('\n')`). -/
def keepNonMagicLines : List String → List String
  | [] => []
  | line :: rest =>
      if isMagicLine line then keepNonMagicLines rest
      else line :: keepNonMagicLines rest

/-- The preprocessed text handed to the AST parser (`clean_source`). -/
def strip_magic_lines (source : String) : String :=
  joinLines (keepNonMagicLines (splitLines source))

/-- The preprocessing described by the spec (second definition, written from
the spec's words for comparison): lines whose first non-whitespace character
is `%`, `!`, **or `?`** are removed. -/
def strip_magic_lines_spec (source : String) : String :=
  joinLines ((splitLines source).filter fun line =>
    !(pyStartsWith (pyStrip line) '%' || pyStartsWith (pyStrip line) '!' ||
      pyStartsWith (pyStrip line) '?'))

/-- Claim C3, counterexample: on the source `"?help\nx = 1"` the code's
preprocessing keeps the `?help` line (only `%` and `!` lines are removed),
so the AST parser does see it, while the spec's preprocessing would remove
it; the two disagree. -/
theorem C3_counterexample_question_mark_kept :
    strip_magic_lines "?help\nx = 1" = "?help\nx = 1" ∧
    strip_magic_lines_spec "?help\nx = 1" = "x = 1" ∧
    strip_magic_lines "?help\nx = 1" ≠
      strip_magic_lines_spec "?help\nx = 1" := by
  refine ⟨by decide, by decide, by decide⟩

/-- Claim C3, amended: the preprocessing removes exactly those lines whose
first non-whitespace character is `%` or `!`; lines starting with `?` are
**not** removed and are passed on to the AST parser with the rest of the
text. -/
theorem C3_strip_magic_lines_filter (ls : List String) :
    keepNonMagicLines ls = ls.filter (fun line => !isMagicLine line) := by
  induction ls with
  | nil => rfl
  | cons line rest ih =>
      by_cases h : isMagicLine line
      · simp [keepNonMagicLines, h, ih]
      · simp [keepNonMagicLines, h, ih]

/-! ## Replay engine — `src/dasa/cli/replay.py`

`_compare_outputs` concatenates the textual parts of the saved outputs and of
the new execution result, strips both, and compares their MD5 digests; the
digest is modelled by the abstract parameter `md5`.  The summary divides the
count of successful-and-matching cells by the number of code cells and
multiplies by 100, rounding the percentage to one decimal (Python's
banker's rounding). -/

/-- The view of `ExecutionResult` consumed by `replay`: `success`, `stdout`,
and the textual form of `result` (`None` modelled as `none`). -/
structure ExecResult where
  success : Bool
  stdout : String
  result : Option String
deriving DecidableEq, Repr

/-- The saved-text accumulation loop of `_compare_outputs`. -/
def savedOutputText (outs : List NbOutput) : String :=
  outs.foldl (fun acc o =>
    match o with
    | .stream t => acc ++ t
    | .executeResult t => acc ++ t
    | .displayData t => acc ++ t
    | .other => acc) ""

/-- `_compare_outputs(saved_outputs, result)`. -/
def compare_outputs (md5 : String → String) (saved : List NbOutput)
    (r : ExecResult) : Bool :=
  if saved = [] then true
  else
    let saved_text := savedOutputText saved
    let new_text := r.stdout ++ r.result.getD ""
    if saved_text = "" ∧ new_text = "" then true
    else md5 (pyStrip saved_text) == md5 (pyStrip new_text)

/-- `reproduced` of the replay summary: cells that both succeeded and whose
output matched (`r["success"] and r.get("output_match", False)`). -/
def reproducedCount (md5 : String → String)
    (cells : List (List NbOutput × ExecResult)) : Nat :=
  cells.countP fun cr => cr.2.success && compare_outputs md5 cr.1 cr.2

/-- `executed` of the replay summary. -/
def executedCount (cells : List (List NbOutput × ExecResult)) : Nat :=
  cells.countP fun cr => cr.2.success

/-- Python `round` (banker's rounding) of a rational to an integer. -/
def pyRoundInt (q : ℚ) : ℤ :=
  if q - ⌊q⌋ < 1 / 2 then ⌊q⌋
  else if 1 / 2 < q - ⌊q⌋ then ⌊q⌋ + 1
  else if ⌊q⌋ % 2 = 0 then ⌊q⌋ else ⌊q⌋ + 1

/-- Python `round(x, 1)`. -/
def pyRound1 (q : ℚ) : ℚ := (pyRoundInt (q * 10) : ℚ) / 10

/-- `reproducibility_score` as put in the summary:
`round(reproduced / total_cells * 100, 1)` when there are cells, else 0. -/
def reproducibility_score (md5 : String → String)
    (cells : List (List NbOutput × ExecResult)) : ℚ :=
  let total_cells := cells.length
  if 0 < total_cells then
    pyRound1 ((reproducedCount md5 cells : ℚ) / (total_cells : ℚ) * 100)
  else 0

theorem pyRoundInt_intCast (n : ℤ) : pyRoundInt (n : ℚ) = n := by
  rw [pyRoundInt, Int.floor_intCast]
  norm_num

theorem pyRound1_hundred : pyRound1 100 = 100 := by
  have h : ((100 : ℚ) * 10) = ((1000 : ℤ) : ℚ) := by norm_num
  rw [pyRound1, h, pyRoundInt_intCast]
  norm_num

/-- Claim C10: a cell whose saved outputs list is empty is reported with
`output_match = true` no matter what the re-execution produced, and it is
counted as reproduced exactly when its re-execution succeeded. -/
theorem C10_empty_outputs_always_match (md5 : String → String)
    (r : ExecResult) (cells : List (List NbOutput × ExecResult)) :
    compare_outputs md5 [] r = true ∧
    reproducedCount md5 (cells ++ [([], r)]) =
      reproducedCount md5 cells + (if r.success then 1 else 0) := by
  constructor
  · rfl
  · rw [reproducedCount, List.countP_append]
    rcases hs : r.success with _ | _ <;>
      simp [reproducedCount, compare_outputs, hs]

/-- Claim C4, counterexample: a one-cell notebook whose replay succeeds and
matches (here: a cell with no saved outputs) gets
`reproducibility_score = 100.0`, not `1.0` — the score is a percentage, not
the fraction `matches_and_succeeded / total_cells`. -/
theorem C4_counterexample_score_is_percentage :
    reproducibility_score (fun s => s) [([], ⟨true, "", none⟩)] = 100 ∧
    (100 : ℚ) ≠ 1 := by
  constructor
  · rw [reproducibility_score]
    have h1 : reproducedCount (fun s => s) [([], ⟨true, "", none⟩)] = 1 := rfl
    simp only [List.length_cons, List.length_nil, h1]
    norm_num [pyRound1_hundred]
  · norm_num

/-- Claim C4, amended: the reproducibility score equals the number of cells
that both executed successfully and whose output matched, divided by the
total number of code cells, **times 100** (a percentage rounded to one
decimal); in particular a notebook whose outputs all match on successful
re-execution yields `reproducibility_score = 100.0`. -/
theorem C4_all_match_score_100 (md5 : String → String)
    (cells : List (List NbOutput × ExecResult))
    (hne : cells ≠ [])
    (hall : ∀ cr ∈ cells, cr.2.success = true ∧
      compare_outputs md5 cr.1 cr.2 = true) :
    reproducibility_score md5 cells = 100 := by
  have hcount : reproducedCount md5 cells = cells.length := by
    rw [reproducedCount]
    apply List.countP_eq_length.mpr
    intro cr hcr
    have h := hall cr hcr
    simp [h.1, h.2]
  have hpos : 0 < cells.length := List.length_pos.mpr hne
  have hq : (cells.length : ℚ) ≠ 0 := by positivity
  rw [reproducibility_score]
  simp only [hpos, if_true, hcount]
  rw [div_self hq, one_mul]
  exact pyRound1_hundred

/-- Witness for C4's amended theorem on a concrete two-cell notebook whose
outputs all match. -/
theorem C4_all_match_score_100_witness :
    ([([], ⟨true, "", none⟩), ([NbOutput.stream "hi"], ⟨true, "hi", none⟩)] ≠
      ([] : List (List NbOutput × ExecResult))) ∧
    reproducibility_score (fun s => s)
      [([], ⟨true, "", none⟩), ([NbOutput.stream "hi"], ⟨true, "hi", none⟩)] =
      100 :=
  ⟨by decide,
   C4_all_match_score_100 (fun s => s)
     [([], ⟨true, "", none⟩), ([NbOutput.stream "hi"], ⟨true, "hi", none⟩)]
     (by decide) (by decide)⟩

/-! ## Persistence writers — atomic-write discipline

`src/dasa/session/state.py` (`StateTracker._save`), `context.py`
(`ContextManager.write`), `profiles.py` (`ProfileCache.save`) and `jobs.py`
(`JobManager._save`).  Each writer is modelled by the sequence of filesystem
operations it performs, transcribed from the source: one trace for the
success path and one for a failure during the content write.  The spec's
required discipline is a second definition (`AtomicWriteSpec`) written from
the spec's words, against which each trace is checked. -/

inductive FsOp
  | mkdirParents (dir : String)
  | mkstempIn (dir : String) (suffix : String)
  | writeTempContent
  | replaceTempOverDest (dest : String)
  | unlinkTemp
  | openDestForWrite (dest : String)
  | writeDestContent
  | touchFile (path : String)
deriving DecidableEq, Repr

/-- `StateTracker._save` success path: `state_path.parent.mkdir(...)`,
`tempfile.mkstemp(dir=parent, suffix=".tmp")`, `json.dump` into the temp
file, `os.replace(tmp_path, state_path)`. -/
def stateSaveTrace (dir : String) : List FsOp :=
  [.mkdirParents dir, .mkstempIn dir ".tmp", .writeTempContent,
   .replaceTempOverDest (dir ++ "/state.json")]

/-- `StateTracker._save` when the content write fails: the `except` branch
unlinks the temp file and re-raises. -/
def stateSaveFailTrace (dir : String) : List FsOp :=
  [.mkdirParents dir, .mkstempIn dir ".tmp", .unlinkTemp]

/-- `ContextManager.write` success path: `ensure_session()` (mkdir `.dasa`,
mkdir `profiles`, touch `log`), then mkstemp, dump, `os.replace` onto
`context.yaml`. -/
def contextWriteTrace (dasaDir : String) : List FsOp :=
  [.mkdirParents dasaDir, .mkdirParents (dasaDir ++ "/profiles"),
   .touchFile (dasaDir ++ "/log"), .mkstempIn dasaDir ".tmp",
   .writeTempContent, .replaceTempOverDest (dasaDir ++ "/context.yaml")]

def contextWriteFailTrace (dasaDir : String) : List FsOp :=
  [.mkdirParents dasaDir, .mkdirParents (dasaDir ++ "/profiles"),
   .touchFile (dasaDir ++ "/log"), .mkstempIn dasaDir ".tmp", .unlinkTemp]

/-- `ProfileCache.save` success path. -/
def profileSaveTrace (profilesDir var : String) : List FsOp :=
  [.mkdirParents profilesDir, .mkstempIn profilesDir ".tmp",
   .writeTempContent,
   .replaceTempOverDest (profilesDir ++ "/" ++ var ++ ".yaml")]

def profileSaveFailTrace (profilesDir : String) : List FsOp :=
  [.mkdirParents profilesDir, .mkstempIn profilesDir ".tmp", .unlinkTemp]

/-- `JobManager._save`: `jobs_dir.mkdir(...)` then
`open(path, "w")` on the destination itself and `json.dump` into it — no
temporary file, no rename, no cleanup branch. -/
def jobSaveTrace (jobsDir jobId : String) : List FsOp :=
  [.mkdirParents jobsDir,
   .openDestForWrite (jobsDir ++ "/" ++ jobId ++ ".json"), .writeDestContent]

/-- The discipline required by the spec (definition written from the spec's
words): the success path writes the new content to a temporary sibling and
atomically renames it over the destination, the failure path deletes the
temporary file, and neither path ever opens the destination directly. -/
def AtomicWriteSpec (dest : String) (ok fail : List FsOp) : Prop :=
  (∃ l1 l2 l3,
    ok = l1 ++ FsOp.writeTempContent :: (l2 ++ FsOp.replaceTempOverDest dest :: l3)) ∧
  FsOp.unlinkTemp ∈ fail ∧
  (∀ d, FsOp.openDestForWrite d ∉ ok) ∧
  (∀ d, FsOp.openDestForWrite d ∉ fail)

/-- Claim C6, counterexample: the job-record writer (`JobManager._save`) does
not follow the atomic discipline — it opens the destination file directly
and never creates a temporary sibling or renames one. -/
theorem C6_counterexample_job_save_not_atomic :
    ¬ AtomicWriteSpec ("p/.dasa/jobs/deadbeef.json")
        (jobSaveTrace "p/.dasa/jobs" "deadbeef")
        (jobSaveTrace "p/.dasa/jobs" "deadbeef") ∧
    FsOp.openDestForWrite "p/.dasa/jobs/deadbeef.json" ∈
      jobSaveTrace "p/.dasa/jobs" "deadbeef" := by
  constructor
  · intro h
    obtain ⟨l1, l2, l3, heq⟩ := h.1
    have hmem : FsOp.writeTempContent ∈ jobSaveTrace "p/.dasa/jobs" "deadbeef" := by
      rw [heq]; simp
    exact absurd hmem (by decide)
  · decide

/-- Claim C6, amended: the execution journal, project context and profile
cache writers all follow the temp-sibling/atomic-rename/unlink-on-failure
discipline and never open their destination directly, but the job-record
writer does not: it opens the destination file directly with no temporary
file. -/
theorem C6_atomic_writers (dir var jobId : String) :
    AtomicWriteSpec (dir ++ "/state.json") (stateSaveTrace dir)
      (stateSaveFailTrace dir) ∧
    AtomicWriteSpec (dir ++ "/context.yaml") (contextWriteTrace dir)
      (contextWriteFailTrace dir) ∧
    AtomicWriteSpec (dir ++ "/" ++ var ++ ".yaml") (profileSaveTrace dir var)
      (profileSaveFailTrace dir) ∧
    FsOp.openDestForWrite (dir ++ "/" ++ jobId ++ ".json") ∈
      jobSaveTrace dir jobId ∧
    (∀ d s, FsOp.mkstempIn d s ∉ jobSaveTrace dir jobId) ∧
    (∀ d, FsOp.replaceTempOverDest d ∉ jobSaveTrace dir jobId) := by
  refine ⟨⟨⟨[.mkdirParents dir, .mkstempIn dir ".tmp"], [], [], rfl⟩,
      by simp [stateSaveFailTrace], ?_, ?_⟩,
    ⟨⟨[.mkdirParents dir, .mkdirParents (dir ++ "/profiles"),
        .touchFile (dir ++ "/log"), .mkstempIn dir ".tmp"], [], [], rfl⟩,
      by simp [contextWriteFailTrace], ?_, ?_⟩,
    ⟨⟨[.mkdirParents dir, .mkstempIn dir ".tmp"], [], [], rfl⟩,
      by simp [profileSaveFailTrace], ?_, ?_⟩,
    by simp [jobSaveTrace], by simp [jobSaveTrace], by simp [jobSaveTrace]⟩
  all_goals
    intro d
    simp [stateSaveTrace, stateSaveFailTrace, contextWriteTrace,
      contextWriteFailTrace, profileSaveTrace, profileSaveFailTrace]

/-! ## State analyzer — `src/dasa/analysis/state.py` (`StateAnalyzer.analyze`)

`analyze` combines `parse_cell` (abstracted as the parameter `parse`, since
it is a pure function of the source text), the cells' execution counters,
and — only when a notebook path and a `StateTracker` are supplied — the
execution journal.  The `(notebook_path, state_tracker)` pair is modelled by
an `Option (String × Journal)`: `none` is the `analyze(adapter)` call shape
used by the `check` command. -/

structure CellAnalysis where
  definitions : List String
  references : List String
  imports : List String
  functions : List String
  classes : List String
deriving DecidableEq, Repr

structure StateIssue where
  cell_index : Int
  severity : String
  message : String
deriving DecidableEq, Repr

structure StateAnalysis where
  is_consistent : Bool
  issues : List StateIssue
  execution_order : List Nat
  correct_order : List Nat
  defined_vars : List (String × Nat)
  undefined_refs : List (Nat × String)
deriving DecidableEq, Repr

/-- Stable insertion by execution count (`sorted(..., key=lambda x: x[1])`
of `JupyterAdapter.execution_order`; Python's sort is stable and so is this
insertion sort). -/
def insertByCount (p : Nat × Nat) : List (Nat × Nat) → List (Nat × Nat)
  | [] => [p]
  | q :: t => if q.2 ≤ p.2 then q :: insertByCount p t else p :: q :: t

def sortByCount : List (Nat × Nat) → List (Nat × Nat)
  | [] => []
  | p :: t => insertByCount p (sortByCount t)

/-- `JupyterAdapter.execution_order`: code cells carrying a counter, ordered
by counter value. -/
def execution_order (cells : List NbCell) : List Nat :=
  (sortByCount ((cells.filter fun c =>
      c.cell_type == "code" && c.execution_count.isSome).map
    fun c => (c.index, c.execution_count.getD 0))).map (·.1)

/-- `_cell_was_executed`: the notebook's own counter, or — when both a path
and a tracker were supplied — `was_executed_current` on the journal. -/
def cell_was_executed (codeHash normPath : String → String) (c : NbCell)
    (tj : Option (String × Journal)) : Bool :=
  c.execution_count.isSome ||
    (match tj with
     | some (path, j) =>
         was_executed_current codeHash normPath j path c.index c.source
     | none => false)

/-- First loop of `analyze`: accumulate `defined_vars` in source order and
emit one `error` issue per reference not yet defined.  Python iterates the
`references` set; the model iterates the list the parser returned. -/
def analyzeUndef (parse : String → CellAnalysis) :
    List NbCell → List (String × Nat) →
    List StateIssue × List (Nat × String) × List (String × Nat)
  | [], dv => ([], [], dv)
  | c :: rest, dv =>
      let a := parse c.source
      let missing := a.references.filter fun r => (dictGet r dv).isNone
      let dv' := a.definitions.foldl (fun m d => dictSet m d c.index) dv
      let (is, refs, dvf) := analyzeUndef parse rest dv'
      (missing.map (fun r =>
          ⟨(c.index : Int), "error", "uses undefined variable '" ++ r ++ "'"⟩)
        ++ is,
       missing.map (fun r => (c.index, r)) ++ refs, dvf)

/-- `StateAnalyzer.analyze`. -/
def analyze (parse : String → CellAnalysis)
    (codeHash normPath : String → String) (cells : List NbCell)
    (tj : Option (String × Journal)) : StateAnalysis :=
  let code_cells := cells.filter fun c => c.cell_type == "code"
  let (undefIssues, undefRefs, dv) := analyzeUndef parse code_cells []
  let neverIssues :=
    (code_cells.filter fun c => !cell_was_executed codeHash normPath c tj).map
      fun c => (⟨(c.index : Int), "warning", "never executed"⟩ : StateIssue)
  let staleIssues :=
    match tj with
    | some (path, j) =>
        (code_cells.filter fun c =>
            was_executed normPath j path c.index &&
            is_stale codeHash normPath j path c.index c.source).map
          fun c => (⟨(c.index : Int), "warning",
            "stale — code modified since last run"⟩ : StateIssue)
    | none => []
  let exec_order := execution_order cells
  let correct :=
    (code_cells.filter fun c => c.execution_count.isSome).map (·.index)
  let orderIssues :=
    if exec_order ≠ [] ∧ exec_order ≠ correct then
      [(⟨(-1 : Int), "warning", "out-of-order execution detected"⟩ : StateIssue)]
    else []
  let issues := undefIssues ++ neverIssues ++ staleIssues ++ orderIssues
  ⟨!issues.any (fun i => i.severity == "error"), issues, exec_order, correct,
   dv, undefRefs⟩

/-! ## `run` / `check` orchestration — `src/dasa/cli/run.py`, `check.py` -/

/-- `_get_cells_to_run`: resolve the target set from the selection flags. -/
def get_cells_to_run (cells : List NbCell) (cell from_cell to_cell : Option Nat)
    (all_cells stale : Bool) : List NbCell :=
  let code_cells := cells.filter fun c => c.cell_type == "code"
  match cell with
  | some i => code_cells.filter fun c => c.index == i
  | none =>
      if all_cells then code_cells
      else
        match from_cell with
        | some f => code_cells.filter fun c => f ≤ c.index
        | none =>
            match to_cell with
            | some t => code_cells.filter fun c => c.index ≤ t
            | none =>
                if stale then code_cells.filter fun c => c.execution_count.isNone
                else []

/-- `_run_sync`: execute each selected cell against the kernel (the
abstracted oracle `execO`) and collect per-cell success flags.  The function
imports no `StateTracker` and performs no journal write and no notebook
save, so the journal is returned unchanged. -/
def run_sync (execO : String → ExecResult) (cells : List NbCell)
    (cell from_cell to_cell : Option Nat) (all_cells stale : Bool)
    (j : Journal) : List (Nat × Bool) × Journal :=
  ((get_cells_to_run cells cell from_cell to_cell all_cells stale).map
    fun c => (c.index, (execO c.source).success), j)

/-- The `check` command's analysis: `StateAnalyzer().analyze(adapter)` —
neither the notebook path nor a tracker is passed, so the journal branch of
the analyzer is never taken. -/
def check_issues (parse : String → CellAnalysis)
    (codeHash normPath : String → String) (cells : List NbCell) :
    List StateIssue :=
  (analyze parse codeHash normPath cells none).issues

/-- `parse_cell` evaluated on the two sources of the C2 scenario: both
`"x = 1"` and `"x = 999"` bind `x` and reference nothing. -/
def c2Parse : String → CellAnalysis := fun src =>
  if src == "x = 1" then ⟨["x"], [], [], [], []⟩
  else if src == "x = 999" then ⟨["x"], [], [], [], []⟩
  else ⟨[], [], [], [], []⟩

/-- The scenario notebook before the edit: one code cell `x = 1`, never
executed by the host. -/
def c2NbBefore : List NbCell := mkCells [("code", "x = 1", [], none)]

/-- The same notebook after the edit to `x = 999`. -/
def c2NbAfter : List NbCell := mkCells [("code", "x = 999", [], none)]

/-- Claim C2, counterexample: `run --cell 0` leaves the journal empty (the
sync runner never writes it), and after editing the cell to `x = 999` the
`check` operation — which consults neither the path nor the journal —
reports exactly one warning `"never executed"` on cell 0 and **no** stale
warning at all. -/
theorem C2_counterexample_check_never_stale :
    (run_sync (fun _ => ⟨true, "", none⟩) c2NbBefore (some 0) none none
        false false []).2 = [] ∧
    check_issues c2Parse (fun s => s) (fun p => p) c2NbAfter =
      [⟨0, "warning", "never executed"⟩] ∧
    (⟨0, "warning", "stale — code modified since last run"⟩ : StateIssue) ∉
      check_issues c2Parse (fun s => s) (fun p => p) c2NbAfter := by
  refine ⟨rfl, by decide, by decide⟩

/-- The journal after recording cell 0 with source `"x = 1"` (what
`check --fix` writes on success; plain `run` writes nothing). -/
def c2Journal : Journal :=
  update_cell (fun s => s) (fun p => p) [] "nb.ipynb" 0 "x = 1" "t0"

/-- Claim C2, amended: after cell 0's source `"x = 1"` is recorded in the
execution journal and the cell is edited to `"x = 999"`, the state analyzer
— when invoked with the notebook path and the journal, which the plain
`check` command does not do — reports exactly one warning
`"stale — code modified since last run"` on cell 0, alongside a
`"never executed"` warning (the edited cell no longer counts as executed);
the report stays consistent since both are warnings. -/
theorem C2_stale_warning_needs_journal :
    (analyze c2Parse (fun s => s) (fun p => p) c2NbAfter
        (some ("nb.ipynb", c2Journal))).issues =
      [⟨0, "warning", "never executed"⟩,
       ⟨0, "warning", "stale — code modified since last run"⟩] ∧
    ((analyze c2Parse (fun s => s) (fun p => p) c2NbAfter
        (some ("nb.ipynb", c2Journal))).issues.countP
      (fun i => i.message == "stale — code modified since last run")) = 1 ∧
    (analyze c2Parse (fun s => s) (fun p => p) c2NbAfter
        (some ("nb.ipynb", c2Journal))).is_consistent = true := by
  refine ⟨by decide, by decide, by decide⟩

/-! ## Dependency graph — `src/dasa/analysis/deps.py`

`DependencyAnalyzer.build_graph` first creates one `CellNode` per code cell
(the parsed `definitions`/`references` of each), then makes a single pass in
source order keeping `var_to_cell : name → index`; for each reference found
in the map and defined by a different cell it adds the edge
`defining_cell → cell` to both `upstream` and `downstream`, and afterwards
records the cell's definitions.  A cell is abstracted to
`(index, definitions, references)` — `parse_cell` is a pure function of the
source, and `build_graph` uses only its two name sets. -/

structure CellNode where
  index : Nat
  definitions : List String
  references : List String
  upstream : List Nat
  downstream : List Nat
deriving DecidableEq, Repr

/-- `(cell.index, analysis.definitions, analysis.references)`. -/
abbrev ParsedCell := Nat × List String × List String

/-- `node.upstream.add(u)` on the node(s) with index `c`. -/
def addUp (nodes : List CellNode) (c u : Nat) : List CellNode :=
  nodes.map fun n =>
    if n.index = c then { n with upstream := n.upstream.insert u } else n

/-- `graph.nodes[d].downstream.add(c)`. -/
def addDown (nodes : List CellNode) (d c : Nat) : List CellNode :=
  nodes.map fun n =>
    if n.index = d then { n with downstream := n.downstream.insert c } else n

/-- The inner reference loop: for each reference found in `var_to_cell` and
defined by a different cell, add the edge pair. -/
def addEdges (vtc : List (String × Nat)) (c : Nat) (refs : List String)
    (nodes : List CellNode) : List CellNode :=
  refs.foldl (fun ns r =>
    match dictGet r vtc with
    | some d => if d ≠ c then addUp (addDown ns d c) c d else ns
    | none => ns) nodes

/-- `var_to_cell[defn] = cell.index` for every definition of the cell. -/
def recordDefs (vtc : List (String × Nat)) (c : Nat) (defs : List String) :
    List (String × Nat) :=
  defs.foldl (fun m d => dictSet m d c) vtc

/-- The edge-building pass over cells in source order. -/
def buildEdges : List ParsedCell → List (String × Nat) → List CellNode →
    List CellNode
  | [], _, nodes => nodes
  | (i, defs, refs) :: rest, vtc, nodes =>
      buildEdges rest (recordDefs vtc i defs) (addEdges vtc i refs nodes)

/-- `DependencyAnalyzer.build_graph`. -/
def build_graph (cells : List ParsedCell) : List CellNode :=
  buildEdges cells [] (cells.map fun pc => ⟨pc.1, pc.2.1, pc.2.2, [], []⟩)

/-- `graph.nodes.get(idx)`. -/
def getNode (g : List CellNode) (i : Nat) : Option CellNode :=
  g.find? fun n => n.index == i

/-- `_walk_upstream`, with explicit fuel standing in for the
visited-set-bounded recursion of the source. -/
def walkUp (g : List CellNode) : Nat → Nat → List Nat → List Nat
  | 0, _, visited => visited
  | fuel + 1, idx, visited =>
      if idx ∈ visited then visited
      else
        let visited' := idx :: visited
        match getNode g idx with
        | none => visited'
        | some n => n.upstream.foldl (fun vs u => walkUp g fuel u vs) visited'

/-- Stable ascending insertion (Python `sorted`). -/
def insertAsc (a : Nat) : List Nat → List Nat
  | [] => [a]
  | b :: t => if b ≤ a then b :: insertAsc a t else a :: b :: t

def sortAsc : List Nat → List Nat
  | [] => []
  | a :: t => insertAsc a (sortAsc t)

/-- `DependencyGraph.get_upstream`: walk, discard the start index, sort. -/
def get_upstream (g : List CellNode) (c : Nat) : List Nat :=
  sortAsc ((walkUp g (g.length + 1) c []).filter fun v => v ≠ c)

/-- `_walk_downstream`, mirroring `walkUp` on the `downstream` sets. -/
def walkDown (g : List CellNode) : Nat → Nat → List Nat → List Nat
  | 0, _, visited => visited
  | fuel + 1, idx, visited =>
      if idx ∈ visited then visited
      else
        let visited' := idx :: visited
        match getNode g idx with
        | none => visited'
        | some n => n.downstream.foldl (fun vs u => walkDown g fuel u vs) visited'

/-- `DependencyGraph.get_downstream`. -/
def get_downstream (g : List CellNode) (c : Nat) : List Nat :=
  sortAsc ((walkDown g (g.length + 1) c []).filter fun v => v ≠ c)

/-- Every stored upstream edge points to a strictly earlier cell. -/
def UpstreamBounded (nodes : List CellNode) : Prop :=
  ∀ n ∈ nodes, ∀ u ∈ n.upstream, u < n.index

/-- `d` is in the upstream set of the node with index `c`. -/
def UpMem (nodes : List CellNode) (c d : Nat) : Prop :=
  ∃ n ∈ nodes, n.index = c ∧ d ∈ n.upstream

/-- `c` is in the downstream set of the node with index `d`. -/
def DownMem (nodes : List CellNode) (d c : Nat) : Prop :=
  ∃ n ∈ nodes, n.index = d ∧ c ∈ n.downstream

/-- Some node carries index `i`. -/
def HasIdx (nodes : List CellNode) (i : Nat) : Prop :=
  ∃ n ∈ nodes, n.index = i

/-- The directed edge relation of the stored graph: `u → c`. -/
def EdgeRel (g : List CellNode) (u c : Nat) : Prop := UpMem g c u

theorem mem_addUp {nodes : List CellNode} {c u : Nat} {n' : CellNode}
    (h : n' ∈ addUp nodes c u) :
    ∃ n ∈ nodes, n'.index = n.index ∧ n'.downstream = n.downstream ∧
      ((n'.upstream = n.upstream) ∨
        (n.index = c ∧ n'.upstream = n.upstream.insert u)) := by
  rw [addUp, List.mem_map] at h
  obtain ⟨n, hn, hn'⟩ := h
  by_cases hc : n.index = c
  · exact ⟨n, hn, by simp [← hn', hc], by simp [← hn', hc],
      Or.inr ⟨hc, by simp [← hn', hc]⟩⟩
  · exact ⟨n, hn, by simp [← hn', hc], by simp [← hn', hc],
      Or.inl (by simp [← hn', hc])⟩

theorem mem_addDown {nodes : List CellNode} {d c : Nat} {n' : CellNode}
    (h : n' ∈ addDown nodes d c) :
    ∃ n ∈ nodes, n'.index = n.index ∧ n'.upstream = n.upstream ∧
      ((n'.downstream = n.downstream) ∨
        (n.index = d ∧ n'.downstream = n.downstream.insert c)) := by
  rw [addDown, List.mem_map] at h
  obtain ⟨n, hn, hn'⟩ := h
  by_cases hd : n.index = d
  · exact ⟨n, hn, by simp [← hn', hd], by simp [← hn', hd],
      Or.inr ⟨hd, by simp [← hn', hd]⟩⟩
  · exact ⟨n, hn, by simp [← hn', hd], by simp [← hn', hd],
      Or.inl (by simp [← hn', hd])⟩

theorem upstreamBounded_addDown {nodes : List CellNode} {d c : Nat}
    (h : UpstreamBounded nodes) : UpstreamBounded (addDown nodes d c) := by
  intro n' hn' u hu
  obtain ⟨n, hn, hidx, hup, _⟩ := mem_addDown hn'
  rw [hidx]
  exact h n hn u (hup ▸ hu)

theorem upstreamBounded_addUp {nodes : List CellNode} {c u : Nat}
    (h : UpstreamBounded nodes) (hu : u < c) :
    UpstreamBounded (addUp nodes c u) := by
  intro n' hn' v hv
  obtain ⟨n, hn, hidx, _, hup⟩ := mem_addUp hn'
  rcases hup with heq | ⟨hic, heq⟩
  · rw [hidx]
    exact h n hn v (heq ▸ hv)
  · rw [heq, List.mem_insert_iff] at hv
    rw [hidx, hic]
    rcases hv with rfl | hv
    · exact hu
    · exact hic ▸ h n hn v hv

theorem addEdges_cons (vtc : List (String × Nat)) (c : Nat) (r : String)
    (rest : List String) (nodes : List CellNode) :
    addEdges vtc c (r :: rest) nodes =
      addEdges vtc c rest
        (match dictGet r vtc with
         | some d => if d ≠ c then addUp (addDown nodes d c) c d else nodes
         | none => nodes) := rfl

theorem upstreamBounded_addEdges {vtc : List (String × Nat)} {c : Nat}
    (refs : List String) {nodes : List CellNode}
    (hv : ∀ r d, dictGet r vtc = some d → d < c)
    (hn : UpstreamBounded nodes) :
    UpstreamBounded (addEdges vtc c refs nodes) := by
  induction refs generalizing nodes with
  | nil => exact hn
  | cons r rest ih =>
      rw [addEdges_cons]
      cases hr : dictGet r vtc with
      | none => exact ih hn
      | some d =>
          show UpstreamBounded (addEdges vtc c rest
            (if d ≠ c then addUp (addDown nodes d c) c d else nodes))
          by_cases hdc : d ≠ c
          · rw [if_pos hdc]
            exact ih (upstreamBounded_addUp (upstreamBounded_addDown hn)
              (hv r d hr))
          · rw [if_neg hdc]
            exact ih hn

theorem recordDefs_cons (vtc : List (String × Nat)) (c : Nat) (d₀ : String)
    (rest : List String) :
    recordDefs vtc c (d₀ :: rest) = recordDefs (dictSet vtc d₀ c) c rest := rfl

theorem dictGet_recordDefs {vtc : List (String × Nat)} {c : Nat}
    (defs : List String) {r : String} {d : Nat}
    (h : dictGet r (recordDefs vtc c defs) = some d) :
    d = c ∨ dictGet r vtc = some d := by
  induction defs generalizing vtc with
  | nil => exact Or.inr h
  | cons d₀ rest ih =>
      rw [recordDefs_cons] at h
      rcases ih h with hc | hget
      · exact Or.inl hc
      · by_cases hr : r = d₀
        · subst hr
          rw [dictGet_dictSet_self] at hget
          exact Or.inl (Option.some_inj.mp hget).symm
        · rw [dictGet_dictSet_ne _ _ _ _ hr] at hget
          exact Or.inr hget

theorem upstreamBounded_buildEdges (rest : List ParsedCell)
    (vtc : List (String × Nat)) (nodes : List CellNode)
    (hinc : List.Pairwise (· < ·) (rest.map (·.1)))
    (hv : ∀ r d, dictGet r vtc = some d → ∀ pc ∈ rest, d < pc.1)
    (hn : UpstreamBounded nodes) :
    UpstreamBounded (buildEdges rest vtc nodes) := by
  induction rest generalizing vtc nodes with
  | nil => exact hn
  | cons pc rest' ih =>
      obtain ⟨i, defs, refs⟩ := pc
      rw [List.map_cons, List.pairwise_cons] at hinc
      refine ih (recordDefs vtc i defs) (addEdges vtc i refs nodes)
        hinc.2 ?_ ?_
      · intro r d hget pc' hpc'
        rcases dictGet_recordDefs defs hget with rfl | hold
        · exact hinc.1 pc'.1 (List.mem_map_of_mem (·.1) hpc')
        · exact hv r d hold pc' (List.mem_cons_of_mem _ hpc')
      · exact upstreamBounded_addEdges refs
          (fun r d hget => hv r d hget (i, defs, refs)
            (List.mem_cons_self _ _))
          hn

/-- The stored upstream sets of the built graph only point backwards. -/
theorem upstreamBounded_build_graph (cells : List ParsedCell)
    (hinc : List.Pairwise (· < ·) (cells.map (·.1))) :
    UpstreamBounded (build_graph cells) := by
  refine upstreamBounded_buildEdges cells [] _ hinc
    (fun r d hget => by simp [dictGet] at hget) ?_
  intro n hn u hu
  rw [List.mem_map] at hn
  obtain ⟨pc, _, rfl⟩ := hn
  simp at hu

theorem bumpUp_index (n : CellNode) (c u : Nat) :
    ((if n.index = c then { n with upstream := n.upstream.insert u }
      else n) : CellNode).index = n.index := by
  by_cases hc : n.index = c <;> simp [hc]

theorem bumpUp_downstream (n : CellNode) (c u : Nat) :
    ((if n.index = c then { n with upstream := n.upstream.insert u }
      else n) : CellNode).downstream = n.downstream := by
  by_cases hc : n.index = c <;> simp [hc]

theorem bumpUp_upstream_mem (n : CellNode) (c u y : Nat)
    (hy : y ∈ n.upstream) :
    y ∈ ((if n.index = c then { n with upstream := n.upstream.insert u }
      else n) : CellNode).upstream := by
  by_cases hc : n.index = c <;> simp [hc, List.mem_insert_iff, hy]

theorem bumpDown_index (n : CellNode) (d c : Nat) :
    ((if n.index = d then { n with downstream := n.downstream.insert c }
      else n) : CellNode).index = n.index := by
  by_cases hd : n.index = d <;> simp [hd]

theorem bumpDown_upstream (n : CellNode) (d c : Nat) :
    ((if n.index = d then { n with downstream := n.downstream.insert c }
      else n) : CellNode).upstream = n.upstream := by
  by_cases hd : n.index = d <;> simp [hd]

theorem bumpDown_downstream_mem (n : CellNode) (d c y : Nat)
    (hy : y ∈ n.downstream) :
    y ∈ ((if n.index = d then { n with downstream := n.downstream.insert c }
      else n) : CellNode).downstream := by
  by_cases hd : n.index = d <;> simp [hd, List.mem_insert_iff, hy]

theorem hasIdx_addUp {nodes : List CellNode} {c u i : Nat} :
    HasIdx (addUp nodes c u) i ↔ HasIdx nodes i := by
  constructor
  · rintro ⟨n', hn', hidx⟩
    obtain ⟨n, hn, hidx', _, _⟩ := mem_addUp hn'
    exact ⟨n, hn, hidx' ▸ hidx⟩
  · rintro ⟨n, hn, hidx⟩
    exact ⟨_, List.mem_map_of_mem _ hn, (bumpUp_index n c u).trans hidx⟩

theorem hasIdx_addDown {nodes : List CellNode} {d c i : Nat} :
    HasIdx (addDown nodes d c) i ↔ HasIdx nodes i := by
  constructor
  · rintro ⟨n', hn', hidx⟩
    obtain ⟨n, hn, hidx', _, _⟩ := mem_addDown hn'
    exact ⟨n, hn, hidx' ▸ hidx⟩
  · rintro ⟨n, hn, hidx⟩
    exact ⟨_, List.mem_map_of_mem _ hn, (bumpDown_index n d c).trans hidx⟩

theorem upMem_addDown {nodes : List CellNode} {d c x y : Nat} :
    UpMem (addDown nodes d c) x y ↔ UpMem nodes x y := by
  constructor
  · rintro ⟨n', hn', hidx, hy⟩
    obtain ⟨n, hn, hidx', hup, _⟩ := mem_addDown hn'
    exact ⟨n, hn, hidx' ▸ hidx, hup ▸ hy⟩
  · rintro ⟨n, hn, hidx, hy⟩
    exact ⟨_, List.mem_map_of_mem _ hn, (bumpDown_index n d c).trans hidx,
      (bumpDown_upstream n d c).symm ▸ hy⟩

theorem downMem_addUp {nodes : List CellNode} {c u x y : Nat} :
    DownMem (addUp nodes c u) x y ↔ DownMem nodes x y := by
  constructor
  · rintro ⟨n', hn', hidx, hy⟩
    obtain ⟨n, hn, hidx', hdown, _⟩ := mem_addUp hn'
    exact ⟨n, hn, hidx' ▸ hidx, hdown ▸ hy⟩
  · rintro ⟨n, hn, hidx, hy⟩
    exact ⟨_, List.mem_map_of_mem _ hn, (bumpUp_index n c u).trans hidx,
      (bumpUp_downstream n c u).symm ▸ hy⟩

theorem upMem_addUp {nodes : List CellNode} {c u x y : Nat} :
    UpMem (addUp nodes c u) x y ↔
      UpMem nodes x y ∨ (x = c ∧ y = u ∧ HasIdx nodes c) := by
  constructor
  · rintro ⟨n', hn', hidx, hy⟩
    obtain ⟨n, hn, hidx', _, hup⟩ := mem_addUp hn'
    rcases hup with heq | ⟨hic, heq⟩
    · exact Or.inl ⟨n, hn, hidx' ▸ hidx, heq ▸ hy⟩
    · rw [heq, List.mem_insert_iff] at hy
      rcases hy with rfl | hy
      · exact Or.inr ⟨by rw [← hidx, hidx', hic], rfl, n, hn, hic⟩
      · exact Or.inl ⟨n, hn, hidx' ▸ hidx, hy⟩
  · rintro (⟨n, hn, hidx, hy⟩ | ⟨rfl, rfl, n, hn, hidx⟩)
    · exact ⟨_, List.mem_map_of_mem _ hn, (bumpUp_index n c u).trans hidx,
        bumpUp_upstream_mem n c u y hy⟩
    · exact ⟨_, List.mem_map_of_mem _ hn,
        (bumpUp_index n _ _).trans hidx,
        by simp [hidx, List.mem_insert_iff]⟩

theorem downMem_addDown {nodes : List CellNode} {d c x y : Nat} :
    DownMem (addDown nodes d c) x y ↔
      DownMem nodes x y ∨ (x = d ∧ y = c ∧ HasIdx nodes d) := by
  constructor
  · rintro ⟨n', hn', hidx, hy⟩
    obtain ⟨n, hn, hidx', _, hdown⟩ := mem_addDown hn'
    rcases hdown with heq | ⟨hic, heq⟩
    · exact Or.inl ⟨n, hn, hidx' ▸ hidx, heq ▸ hy⟩
    · rw [heq, List.mem_insert_iff] at hy
      rcases hy with rfl | hy
      · exact Or.inr ⟨by rw [← hidx, hidx', hic], rfl, n, hn, hic⟩
      · exact Or.inl ⟨n, hn, hidx' ▸ hidx, hy⟩
  · rintro (⟨n, hn, hidx, hy⟩ | ⟨rfl, rfl, n, hn, hidx⟩)
    · exact ⟨_, List.mem_map_of_mem _ hn, (bumpDown_index n d c).trans hidx,
        bumpDown_downstream_mem n d c y hy⟩
    · exact ⟨_, List.mem_map_of_mem _ hn,
        (bumpDown_index n _ _).trans hidx,
        by simp [hidx, List.mem_insert_iff]⟩

/-- Adding one edge pair `(d → c)` preserves the upstream/downstream mirror
symmetry, provided nodes with both indices exist. -/
theorem edgeSym_addPair {nodes : List CellNode} {d c : Nat}
    (hsym : ∀ x y, UpMem nodes x y ↔ DownMem nodes y x)
    (hc : HasIdx nodes c) (hd : HasIdx nodes d) :
    ∀ x y, UpMem (addUp (addDown nodes d c) c d) x y ↔
      DownMem (addUp (addDown nodes d c) c d) y x := by
  intro x y
  rw [upMem_addUp, upMem_addDown, downMem_addUp, downMem_addDown,
    hasIdx_addDown]
  constructor
  · rintro (hup | ⟨rfl, rfl, _⟩)
    · exact Or.inl ((hsym x y).mp hup)
    · exact Or.inr ⟨rfl, rfl, hd⟩
  · rintro (hdown | ⟨rfl, rfl, _⟩)
    · exact Or.inl ((hsym x y).mpr hdown)
    · exact Or.inr ⟨rfl, rfl, hc⟩

theorem edgeSym_addEdges (refs : List String) {vtc : List (String × Nat)}
    {c : Nat} {nodes : List CellNode}
    (hvIdx : ∀ r d, dictGet r vtc = some d → HasIdx nodes d)
    (hc : HasIdx nodes c)
    (hsym : ∀ x y, UpMem nodes x y ↔ DownMem nodes y x) :
    (∀ x y, UpMem (addEdges vtc c refs nodes) x y ↔
      DownMem (addEdges vtc c refs nodes) y x) ∧
    (∀ i, HasIdx (addEdges vtc c refs nodes) i ↔ HasIdx nodes i) := by
  induction refs generalizing nodes with
  | nil => exact ⟨hsym, fun _ => Iff.rfl⟩
  | cons r rest ih =>
      rw [addEdges_cons]
      cases hr : dictGet r vtc with
      | none => exact ih hvIdx hc hsym
      | some d =>
          show (∀ x y, UpMem (addEdges vtc c rest
              (if d ≠ c then addUp (addDown nodes d c) c d else nodes)) x y ↔
              DownMem (addEdges vtc c rest
              (if d ≠ c then addUp (addDown nodes d c) c d else nodes)) y x) ∧
            (∀ i, HasIdx (addEdges vtc c rest
              (if d ≠ c then addUp (addDown nodes d c) c d else nodes)) i ↔
              HasIdx nodes i)
          by_cases hdc : d ≠ c
          · rw [if_pos hdc]
            have hidxiff : ∀ i, HasIdx (addUp (addDown nodes d c) c d) i ↔
                HasIdx nodes i := by
              intro i
              rw [hasIdx_addUp, hasIdx_addDown]
            have h := @ih (addUp (addDown nodes d c) c d)
              (fun r' d' hget => (hidxiff d').mpr (hvIdx r' d' hget))
              ((hidxiff c).mpr hc)
              (edgeSym_addPair hsym hc (hvIdx r d hr))
            exact ⟨h.1, fun i => (h.2 i).trans (hidxiff i)⟩
          · rw [if_neg hdc]
            exact ih hvIdx hc hsym

theorem edgeSym_buildEdges (rest : List ParsedCell)
    (vtc : List (String × Nat)) (nodes : List CellNode)
    (hvIdx : ∀ r d, dictGet r vtc = some d → HasIdx nodes d)
    (hrest : ∀ pc ∈ rest, HasIdx nodes pc.1)
    (hsym : ∀ x y, UpMem nodes x y ↔ DownMem nodes y x) :
    ∀ x y, UpMem (buildEdges rest vtc nodes) x y ↔
      DownMem (buildEdges rest vtc nodes) y x := by
  induction rest generalizing vtc nodes with
  | nil => exact hsym
  | cons pc rest' ih =>
      obtain ⟨i, defs, refs⟩ := pc
      have hci : HasIdx nodes i := hrest (i, defs, refs) (List.mem_cons_self _ _)
      have h := edgeSym_addEdges refs hvIdx hci hsym
      refine ih (recordDefs vtc i defs) (addEdges vtc i refs nodes)
        ?_ ?_ h.1
      · intro r d hget
        rcases dictGet_recordDefs defs hget with rfl | hold
        · exact (h.2 d).mpr hci
        · exact (h.2 d).mpr (hvIdx r d hold)
      · intro pc' hpc'
        exact (h.2 pc'.1).mpr (hrest pc' (List.mem_cons_of_mem _ hpc'))

/-- Mirror symmetry of the built graph's stored edge sets. -/
theorem edgeSym_build_graph (cells : List ParsedCell) :
    ∀ x y, UpMem (build_graph cells) x y ↔ DownMem (build_graph cells) y x := by
  refine edgeSym_buildEdges cells [] _
    (fun r d hget => by simp [dictGet] at hget) ?_ ?_
  · intro pc hpc
    exact ⟨⟨pc.1, pc.2.1, pc.2.2, [], []⟩, List.mem_map_of_mem _ hpc, rfl⟩
  · intro x y
    constructor
    · rintro ⟨n, hn, _, hy⟩
      rw [List.mem_map] at hn
      obtain ⟨pc, _, rfl⟩ := hn
      simp at hy
    · rintro ⟨n, hn, _, hy⟩
      rw [List.mem_map] at hn
      obtain ⟨pc, _, rfl⟩ := hn
      simp at hy

theorem getNode_spec {g : List CellNode} {i : Nat} {n : CellNode}
    (h : getNode g i = some n) : n ∈ g ∧ n.index = i := by
  rw [getNode] at h
  refine ⟨List.mem_of_find?_eq_some h, ?_⟩
  have hp := List.find?_some h
  simpa using hp

theorem walkUp_foldl_sound (g : List CellNode) (fuel : Nat)
    (ih : ∀ idx visited, ∀ v ∈ walkUp g fuel idx visited,
      v ∈ visited ∨ v ≤ idx) :
    ∀ (l : List Nat) (vs : List Nat) (v : Nat),
      v ∈ l.foldl (fun vs u => walkUp g fuel u vs) vs →
      v ∈ vs ∨ ∃ u ∈ l, v ≤ u := by
  intro l
  induction l with
  | nil => exact fun vs v hv => Or.inl hv
  | cons u t iht =>
      intro vs v hv
      rw [List.foldl_cons] at hv
      rcases iht _ v hv with h1 | ⟨u', hu', hle⟩
      · rcases ih u vs v h1 with h2 | h2
        · exact Or.inl h2
        · exact Or.inr ⟨u, List.mem_cons_self _ _, h2⟩
      · exact Or.inr ⟨u', List.mem_cons_of_mem _ hu', hle⟩

/-- Soundness of the upstream walk: every index it visits is either already
in the visited accumulator or bounded by the start index (strictly below it
once the start is excluded), provided the graph's stored upstream edges only
point backwards. -/
theorem walkUp_sound (g : List CellNode) (hUB : UpstreamBounded g) :
    ∀ fuel idx visited, ∀ v ∈ walkUp g fuel idx visited,
      v ∈ visited ∨ v ≤ idx := by
  intro fuel
  induction fuel with
  | zero => exact fun idx visited v hv => Or.inl hv
  | succ fuel ih =>
      intro idx visited v hv
      rw [walkUp] at hv
      by_cases hmem : idx ∈ visited
      · rw [if_pos hmem] at hv
        exact Or.inl hv
      · rw [if_neg hmem] at hv
        cases hn : getNode g idx with
        | none =>
            rw [hn] at hv
            rcases List.mem_cons.mp hv with rfl | h
            · exact Or.inr le_rfl
            · exact Or.inl h
        | some n =>
            rw [hn] at hv
            obtain ⟨hng, hni⟩ := getNode_spec hn
            rcases walkUp_foldl_sound g fuel ih n.upstream (idx :: visited) v
                hv with h1 | ⟨u, hu, hle⟩
            · rcases List.mem_cons.mp h1 with rfl | h
              · exact Or.inr le_rfl
              · exact Or.inl h
            · have := hUB n hng u hu
              exact Or.inr (le_of_lt (lt_of_le_of_lt hle (hni ▸ this)))

theorem mem_insertAsc (a b : Nat) (l : List Nat) :
    b ∈ insertAsc a l ↔ b = a ∨ b ∈ l := by
  induction l with
  | nil => simp [insertAsc]
  | cons c t ih =>
      rw [insertAsc]
      by_cases hc : c ≤ a
      · rw [if_pos hc]
        simp only [List.mem_cons, ih]
        tauto
      · rw [if_neg hc]
        simp only [List.mem_cons]

theorem mem_sortAsc (a : Nat) (l : List Nat) : a ∈ sortAsc l ↔ a ∈ l := by
  induction l with
  | nil => simp [sortAsc]
  | cons b t ih =>
      rw [sortAsc, mem_insertAsc, ih, List.mem_cons]

/-- Every member of the transitive upstream query is a strictly earlier
index. -/
theorem get_upstream_lt (g : List CellNode) (hUB : UpstreamBounded g)
    (c u : Nat) (hu : u ∈ get_upstream g c) : u < c := by
  rw [get_upstream, mem_sortAsc, List.mem_filter] at hu
  obtain ⟨hw, hne⟩ := hu
  have hne' : u ≠ c := by simpa using hne
  rcases walkUp_sound g hUB (g.length + 1) c [] u hw with h | h
  · simp at h
  · exact lt_of_le_of_ne h hne'

theorem edgeRel_lt {g : List CellNode} (hUB : UpstreamBounded g) {u c : Nat}
    (h : EdgeRel g u c) : u < c := by
  obtain ⟨n, hn, rfl, hu⟩ := h
  exact hUB n hn u hu

theorem transGen_edgeRel_lt {g : List CellNode} (hUB : UpstreamBounded g)
    {a b : Nat} (h : Relation.TransGen (EdgeRel g) a b) : a < b := by
  induction h with
  | single hr => exact edgeRel_lt hUB hr
  | tail _ hr ih => exact lt_trans ih (edgeRel_lt hUB hr)

/-- Claim C7: for every notebook (any list of parsed code cells with
strictly increasing indices, as `adapter.code_cells` produces), the built
dependency graph is acyclic — no index reaches itself through stored edges —
every stored upstream edge and every member `u` of the transitive
`get_upstream c` query satisfies `u < c`, and membership is symmetric:
`d` is in node `c`'s upstream set iff `c` is in node `d`'s downstream set. -/
theorem C7_dependency_graph_invariants (cells : List ParsedCell)
    (hinc : List.Pairwise (· < ·) (cells.map (·.1))) :
    (∀ c, ¬ Relation.TransGen (EdgeRel (build_graph cells)) c c) ∧
    (∀ n ∈ build_graph cells, ∀ u ∈ n.upstream, u < n.index) ∧
    (∀ c u, u ∈ get_upstream (build_graph cells) c → u < c) ∧
    (∀ c d, UpMem (build_graph cells) c d ↔
      DownMem (build_graph cells) d c) := by
  have hUB := upstreamBounded_build_graph cells hinc
  refine ⟨?_, hUB, ?_, ?_⟩
  · intro c hcyc
    exact lt_irrefl c (transGen_edgeRel_lt hUB hcyc)
  · exact fun c u hu => get_upstream_lt _ hUB c u hu
  · intro c d
    exact edgeSym_build_graph cells c d

/-- The three-cell example `x = 1` / `y = x + 1` / `z = y + 1` as parsed
cells. -/
def exParsedCells : List ParsedCell :=
  [(0, ["x"], []), (1, ["y"], ["x"]), (2, ["z"], ["y"])]

/-- Witness for C7 on the concrete three-cell chain; the transitive query
also evaluates to `[0, 1]`. -/
theorem C7_dependency_graph_invariants_witness :
    List.Pairwise (· < ·) (exParsedCells.map (·.1)) ∧
    ((∀ c, ¬ Relation.TransGen (EdgeRel (build_graph exParsedCells)) c c) ∧
     (∀ n ∈ build_graph exParsedCells, ∀ u ∈ n.upstream, u < n.index) ∧
     (∀ c u, u ∈ get_upstream (build_graph exParsedCells) c → u < c) ∧
     (∀ c d, UpMem (build_graph exParsedCells) c d ↔
       DownMem (build_graph exParsedCells) d c)) ∧
    get_upstream (build_graph exParsedCells) 2 = [0, 1] :=
  ⟨by decide, C7_dependency_graph_invariants exParsedCells (by decide),
   by decide⟩

end Dasa
